import Mathlib

/-!
Shallow embedding of `src/lib/HLSPFile.py` (class `HLSPFile`) from the
MAST-HLSP repository, together with models of the pieces of
`lib/FitsKeyword.py` and `lib/FileType.py` that `HLSPFile` relies on
(those two modules are not part of the source tree given here, so their
operations are modelled from the specification and clearly marked).

Python dictionaries are embedded as association lists with unique keys
(in insertion order, which is what Python dictionaries preserve);
Python strings are Lean `String`s; fallible operations return
`Option`/`Except` values or carry an explicit error component.
-/

namespace HLSP

/-! ### Generic association-list helpers (Python `dict` as assoc list) -/

/-- Python `d[k]` lookup (first matching key; keys are unique in a dict). -/
def alookup {α : Type} : List (String × α) → String → Option α
  | [], _ => none
  | p :: ps, k => if p.1 = k then some p.2 else alookup ps k

/-- Python `d[k] = v` / `d.update({k: v})`: overwrite an existing key in
place (keeping its position, as Python dicts do) or append a new one. -/
def aset {α : Type} (l : List (String × α)) (k : String) (v : α) :
    List (String × α) :=
  if (alookup l k).isSome then
    l.map (fun p => if p.1 = k then (p.1, v) else p)
  else l ++ [(k, v)]

/-! ### String helpers, written over the character list so that every
concrete evaluation reduces in the kernel.  They mirror the exact Python
string operations used by `HLSPFile.py` (ASCII inputs). -/

/-- Python `str.lower()` (ASCII, which is all the source uses). -/
def lowerStr (s : String) : String := ⟨s.data.map Char.toLower⟩

/-- Python `str.upper()` (ASCII). -/
def upperStr (s : String) : String := ⟨s.data.map Char.toUpper⟩

/-- Python `str.endswith(t)`. -/
def endsWithStr (s t : String) : Bool := t.data.isSuffixOf s.data

/-- Python `sep.join(parts)`. -/
def joinSep (sep : String) : List String → String
  | [] => ""
  | [s] => s
  | s :: ss => s ++ sep ++ joinSep sep ss

/-- Lexicographic code-point comparison, Python `s <= t` for strings. -/
def charListLe : List Char → List Char → Bool
  | [], _ => true
  | _ :: _, [] => false
  | a :: as, b :: bs =>
    if a = b then charListLe as bs else a.val < b.val

def strLeB (s t : String) : Bool := charListLe s.data t.data

/-- Insertion step of an insertion sort using code-point order. -/
def insertSorted (s : String) : List String → List String
  | [] => [s]
  | t :: ts => if strLeB s t then s :: t :: ts else t :: insertSorted s ts

/-- Python `sorted(keys)` (ascending code-point lexicographic order). -/
def sortKeys (l : List String) : List String := l.foldr insertSorted []

/-- Split a character list on a single separator character; mirrors
Python `s.split(c)` (so `"a_b"` gives `["a", "b"]` and `""` gives
`[""]`). -/
def splitChar (c : Char) : List Char → List (List Char)
  | [] => [[]]
  | d :: ds =>
    let r := splitChar c ds
    if d = c then [] :: r
    else
      match r with
      | [] => [[d]]
      | g :: gs => (d :: g) :: gs

def splitCharStr (s : String) (c : Char) : List String :=
  (splitChar c s.data).map (fun l => ⟨l⟩)

/-- The text before the first occurrence of `sep`; mirrors Python
`s.split(sep, 1)[0]` (the whole string when `sep` does not occur). -/
def takeUntilSub (sep : List Char) : List Char → List Char
  | [] => []
  | c :: cs => if sep.isPrefixOf (c :: cs) then [] else c :: takeUntilSub sep cs

def splitFirst (s : String) (sep : String) : String :=
  ⟨takeUntilSub sep.data s.data⟩

/-- Python `os.path.join(a, b)` for the shapes used by `HLSPFile.py`
(`b` is always a relative file or directory name there). -/
def pjoin (a b : String) : String :=
  if a = "" then b
  else if endsWithStr a "/" then a ++ b
  else a ++ "/" ++ b

/-! ### FITS keyword records and keyword lists

`HLSPFile.py` imports `FitsKeyword` and `FitsKeywordList` from
`lib/FitsKeyword.py`, which is not part of the given source tree, so the
record type and its three operations (`update`, `add`, `diff`) are
modelled from the specification (sections 3 and 4.1). -/

/-- Modelled from the spec: a `FitsKeyword` record from the missing
`lib/FitsKeyword.py`, reduced to its identifier (`fits_keyword`) and its
map of field values (the value and auxiliary parameters, a Python dict
with string values in this embedding). -/
structure FitsKeyword where
  fits_keyword : String
  fields : List (String × String)
deriving DecidableEq, Repr

/-- Modelled from the spec: `FitsKeyword.update(parameters)` from the
missing `lib/FitsKeyword.py` — a union-merge where supplied fields
overwrite the record's fields and fields not supplied are left
untouched; fields new to the record are added.  (The changed-or-not
report the spec mentions is discarded by every caller in
`HLSPFile.py`.) -/
def kwUpdate (kw : FitsKeyword) (params : List (String × String)) :
    FitsKeyword :=
  { kw with
    fields :=
      kw.fields.map (fun p =>
        match alookup params p.1 with
        | some v => (p.1, v)
        | none => p) ++
      params.filter (fun q => (alookup kw.fields q.1).isNone) }

/-- Find a record by identifier (first match), as the membership scans
in `HLSPFile.py` and the spec's by-identifier operations do. -/
def findKw : List FitsKeyword → String → Option FitsKeyword
  | [], _ => none
  | k :: ks, i => if k.fits_keyword = i then some k else findKw ks i

/-- Modelled from the spec: `FitsKeywordList.add(record)` from the
missing `lib/FitsKeyword.py` — if a record with the same identifier
exists it is updated in place with the new record's fields, otherwise
the new record is appended. -/
def kwAdd (ks : List FitsKeyword) (kw : FitsKeyword) : List FitsKeyword :=
  if (findKw ks kw.fits_keyword).isSome then
    ks.map (fun k =>
      if k.fits_keyword = kw.fits_keyword then kwUpdate k kw.fields else k)
  else ks ++ [kw]

/-- Modelled from the spec: the per-record step of
`FitsKeywordList.diff` from the missing `lib/FitsKeyword.py`.  A record
of `self` that is absent (by identifier) in `other` is kept whole; one
that is present is reduced to its differing fields (kept only when at
least one field differs). -/
def recDiff (s : FitsKeyword) (other : List FitsKeyword) :
    Option FitsKeyword :=
  match findKw other s.fits_keyword with
  | none => some s
  | some t =>
    let d := s.fields.filter (fun p => !(alookup t.fields p.1 == some p.2))
    if d.isEmpty then none else some { fits_keyword := s.fits_keyword, fields := d }

/-- Modelled from the spec: `FitsKeywordList.diff(other)` from the
missing `lib/FitsKeyword.py` — the minimal update list of `self`
relative to `other`, in `self`'s order. -/
def kwDiff (a b : List FitsKeyword) : List FitsKeyword :=
  a.filterMap (fun s => recDiff s b)

/-- The identifiers of a keyword list, in order. -/
def kwIds (ks : List FitsKeyword) : List String :=
  ks.map FitsKeyword.fits_keyword

/-- Well-formedness of a keyword record: its field map is a Python
dict, so its keys are unique. -/
def wfFields (kw : FitsKeyword) : Prop := (kw.fields.map Prod.fst).Nodup

/-- Well-formedness of a keyword list: identifiers are unique (the
`FitsKeywordList` invariant) and every record's field map is a dict. -/
def wfSet (ks : List FitsKeyword) : Prop :=
  (kwIds ks).Nodup ∧ ∀ kw ∈ ks, wfFields kw

instance (kw : FitsKeyword) : Decidable (wfFields kw) := by
  unfold wfFields; infer_instance

instance (ks : List FitsKeyword) : Decidable (wfSet ks) := by
  unfold wfSet; infer_instance

/-! ### File types

`lib/FileType.py` is likewise not part of the given source tree; the
fields below are exactly the ones `HLSPFile.py` reads
(`ftype`, `standard`, `product_type`, `run_check`). -/

/-- Modelled from the spec: a `FileType` entry from the missing
`lib/FileType.py` — a file-ending tag, a metadata standard name, a
product-type tag and the participates-in-validation flag. -/
structure FileType where
  ftype : String
  standard : String
  product_type : String
  run_check : Bool
deriving DecidableEq, Repr

/-! ### The HLSPFile state

The attributes initialized by `HLSPFile.__init__` (the private
`_fits_keywords` / `_standard_keywords` lists and the six public
attributes; the unused `_updated` flag and the on-demand path attributes
are modelled where needed). -/

structure HLSPFile where
  file_paths : List (String × String)
  file_types : List FileType
  hlsp_name : String
  ingest : List (String × Bool)
  keyword_updates : List FitsKeyword
  unique_parameters : List (String × List (String × String))
  fits_keywords : List FitsKeyword
  standard_keywords : List FitsKeyword
deriving DecidableEq, Repr

/-- The ingestion steps set by `HLSPFile.__init__`. -/
def ingestSteps : List String :=
  ["00_filenames_checked",
   "01_metadata_prechecked",
   "02_metadata_checked",
   "03_fits_keywords_set",
   "04_value_parameters_added"]

/-- A freshly constructed `HLSPFile()` (no dict, name or path given). -/
def emptyHLSPFile : HLSPFile :=
  { file_paths := [("InputDir", ""), ("Output", "")]
    file_types := []
    hlsp_name := "blank"
    ingest := ingestSteps.map (fun s => (s, false))
    keyword_updates := []
    unique_parameters := []
    fits_keywords := []
    standard_keywords := [] }

/-! ### Methods of `HLSPFile` (translated from `src/lib/HLSPFile.py`) -/

/-- `HLSPFile._add_fits_keyword` (lines 227-260): scan `_fits_keywords`
for a record with the same `fits_keyword`; every match is updated in
place with the incoming record's field values; when no match is found
the record is appended.  (The `TypeError` guard for non-`FitsKeyword`
arguments is outside this typed embedding, and the `updated` report is
discarded by the source as well.) -/
def priv_add_fits_keyword (ks : List FitsKeyword) (kw : FitsKeyword) :
    List FitsKeyword :=
  let found := ks.any (fun k => k.fits_keyword == kw.fits_keyword)
  let ks := ks.map (fun k =>
    if k.fits_keyword = kw.fits_keyword then kwUpdate k kw.fields else k)
  if found then ks else ks ++ [kw]

/-- `HLSPFile.add_fits_keyword` (lines 507-529): with `standard` set, a
copy of the record is added to `_standard_keywords` first; the record is
then added to `_fits_keywords` (both through `FitsKeywordList.add`). -/
def add_fits_keyword (st : HLSPFile) (kw : FitsKeyword) (standard : Bool) :
    HLSPFile :=
  let st :=
    if standard then { st with standard_keywords := kwAdd st.standard_keywords kw }
    else st
  { st with fits_keywords := kwAdd st.fits_keywords kw }

/-- `HLSPFile._get_keyword_updates` (lines 331-340): set
`keyword_updates` to `_fits_keywords.diff(_standard_keywords)`. -/
def get_keyword_updates (st : HLSPFile) : HLSPFile :=
  { st with keyword_updates := kwDiff st.fits_keywords st.standard_keywords }

/-- `HLSPFile._implement_keyword_updates` (lines 382-391): feed every
record of `keyword_updates` to `_add_fits_keyword`. -/
def implement_keyword_updates (st : HLSPFile) : HLSPFile :=
  { st with
    fits_keywords := st.keyword_updates.foldl priv_add_fits_keyword st.fits_keywords }

/-- `HLSPFile.add_filetype` (lines 484-505): append the new entry only
when its `ftype` tag is not already carried by a registered entry.
(The `TypeError` guard for non-`FileType` arguments is outside this
typed embedding.) -/
def add_filetype (fts : List FileType) (new_filetype : FileType) :
    List FileType :=
  let current_types := fts.map FileType.ftype
  if new_filetype.ftype ∈ current_types then fts else fts ++ [new_filetype]

/-- Lines 588-594 of `HLSPFile.add_unique_parameter`: the provenance
placeholder substitutions.  The two `if` statements of the source run
in sequence on `value` (they can never both fire, since `caom` cannot
be both `name` and `reference`). -/
def substValue (st : HLSPFile) (caom parent value : String) : String :=
  let v1 :=
    if parent = "provenance" ∧ caom = "name" ∧ endsWithStr value ">" then
      upperStr st.hlsp_name
    else value
  if parent = "provenance" ∧ caom = "reference" ∧ endsWithStr v1 ">" then
    joinSep "/" ["https://archive.stsci.edu/hlsp", lowerStr st.hlsp_name]
  else v1

/-- `HLSPFile.add_unique_parameter` (lines 565-597): ensure the parent
section exists, apply the provenance placeholder substitutions (a
`name` or `reference` value ending in `>` is replaced by the uppercased
name, resp. the constructed archive URL), then store the pair in the
parent section. -/
def add_unique_parameter (st : HLSPFile) (caom parent value : String) :
    HLSPFile :=
  { st with
    unique_parameters :=
      (if (alookup st.unique_parameters parent).isSome then
        st.unique_parameters
      else st.unique_parameters ++ [(parent, [])]).map
        (fun p =>
          if p.1 = parent then (p.1, aset p.2 caom (substValue st caom parent value))
          else p) }

/-- Observing `unique_parameters`: the value stored under a parent
section and CAOM keyword (Python `self.unique_parameters[parent][caom]`). -/
def getUnique (st : HLSPFile) (parent caom : String) : Option String :=
  (alookup st.unique_parameters parent).bind (fun sec => alookup sec caom)

/-- `HLSPFile._bulk_add_static_values` (lines 284-288): feed every
`(parent, key, value)` triple of a static-values section to
`add_unique_parameter`. -/
def bulk_add_static_values (st : HLSPFile)
    (static_values : List (String × List (String × String))) : HLSPFile :=
  static_values.foldl
    (fun st p => p.2.foldl (fun st q => add_unique_parameter st q.1 p.1 q.2) st)
    st

/-- `HLSPFile.get_data_path` (lines 714-723): return
`file_paths["InputDir"]`; a missing key raises a descriptive
`AttributeError`, embedded as `Except.error` (message without the
quotation marks of the source). -/
def get_data_path (st : HLSPFile) : Except String String :=
  match alookup st.file_paths "InputDir" with
  | some path => Except.ok path
  | none =>
    Except.error
      ("<HLSPFile> object for " ++ st.hlsp_name ++ " is missing InputDir!")

/-- Whether a `FileType` row passes the guard of
`member_fits_standards`: Python `ft.standard and ft.product_type and
ft.run_check` (strings are truthy when non-empty). -/
def qualifies (ft : FileType) : Bool :=
  !ft.standard.isEmpty && !ft.product_type.isEmpty && ft.run_check

/-- The standard name `"_".join([ft.product_type, ft.standard])`. -/
def stdName (ft : FileType) : String :=
  joinSep "_" [ft.product_type, ft.standard]

/-- `HLSPFile.member_fits_standards` (lines 842-869): `None` when no
file types are registered; otherwise collect the deduplicated standard
names of the qualifying rows, returning `None` when none qualify. -/
def member_fits_standards (fts : List FileType) : Option (List String) :=
  if fts.length = 0 then none
  else
    let standards := fts.foldl
      (fun acc ft =>
        if qualifies ft then
          if stdName ft ∈ acc then acc else acc ++ [stdName ft]
        else acc)
      []
    if standards.length > 0 then some standards else none

/-- The two external lookups `_get_standard_fits_keywords` performs:
`read_yaml` of the per-standard FITS template (its `KEYWORDS` section,
an identifier-to-fields dict) and `read_yaml` of the static-values
file (a section-name-to-parameter-sections dict, where a missing
section is a `KeyError`).  Both files live outside the source tree, so
they are parameters of the embedding. -/
structure Collab where
  tmpl : String → List (String × List (String × String))
  statics : String → Option (List (String × List (String × String)))

/-- `HLSPFile._get_standard_fits_keywords` (lines 342-380): for each
member standard, add one `FitsKeyword` per template entry (through
`add_fits_keyword` with `standard=True`), then bulk-add the static
values of the `hlsp` section and of the data-type and instrument halves
of the standard name (the latter two guarded by `try/except KeyError`).
`none` embeds the uncaught Python errors of this method: the
`ValueError` when the standard name does not split into exactly two
parts, and the `KeyError` when the static-values file has no `hlsp`
section. -/
def get_standard_fits_keywords (co : Collab) (st : HLSPFile) :
    Option HLSPFile :=
  match member_fits_standards st.file_types with
  | none => some st
  | some all_standards =>
    all_standards.foldlM
      (fun st std => do
        let st := (co.tmpl std).foldl
          (fun st p => add_fits_keyword st ⟨p.1, p.2⟩ true) st
        match splitCharStr std '_' with
        | [data_type, inst] =>
          match co.statics "hlsp" with
          | none => none
          | some hlsp_section =>
            let st := bulk_add_static_values st hlsp_section
            let st := match co.statics data_type with
              | some sec => bulk_add_static_values st sec
              | none => st
            let st := match co.statics inst with
              | some sec => bulk_add_static_values st sec
              | none => st
            some st
        | _ => none)
      st

/-- The net effect of the template loop of
`_get_standard_fits_keywords` on a keyword list: one
`FitsKeywordList.add` per template entry, in template order. -/
def kwFoldTemplate (tl : List (String × List (String × String)))
    (ks : List FitsKeyword) : List FitsKeyword :=
  tl.foldl (fun ks p => kwAdd ks ⟨p.1, p.2⟩) ks

/-- Python key lookup in the ingest dict (the source only reads keys
that are present; a missing key would be a `KeyError`, and this total
embedding returns `false` there). -/
def ingLookup (ing : List (String × Bool)) (k : String) : Bool :=
  (alookup ing k).getD false

/-- `HLSPFile.toggle_ingest` (lines 943-971): pick the step name by
index into the sorted key list, set or toggle its flag, and when the
flag is now set, force every earlier step's flag as well.  (An
out-of-range `step_num` raises `IndexError` in Python; the claims only
exercise indices `0..4`, where the lookup succeeds.) -/
def toggle_ingest (ing : List (String × Bool)) (step_num : Nat)
    (state : Option Bool) : List (String × Bool) :=
  let keys := sortKeys (ing.map Prod.fst)
  match keys.get? step_num with
  | none => ing
  | some ind =>
    let newVal :=
      match state with
      | some b => b
      | none => !(ingLookup ing ind)
    let ing := aset ing ind newVal
    if ingLookup ing ind then
      (keys.take step_num).foldl (fun acc k => aset acc k true) ing
    else ing

/-! ### Stage paths and output-file selection -/

/-- Class attribute `_check_file_names_out`. -/
def check_file_names_out : String := "check_file_names"
/-- Class attribute `_check_metadata_format_out`. -/
def check_metadata_format_out : String := "check_metadata_format"
/-- Class attribute `_precheck_metadata_format_out`. -/
def precheck_metadata_format_out : String := "precheck_data_format"
/-- Class attribute `_check_file_names_dir`. -/
def check_file_names_dir : String := upperStr check_file_names_out
/-- Class attribute `_check_metadata_format_dir`. -/
def check_metadata_format_dir : String := upperStr check_metadata_format_out
/-- Class attribute `_file_ext`. -/
def file_ext : String := ".hlsp"
/-- Class attribute `_root_dir`. -/
def root_dir : String := "MAST_HLSP"

/-- `HLSPFile._get_filename` (lines 313-329): the lowercased name plus
the `.hlsp` extension, with an optional (truthy) prefixed step name. -/
def get_filename (hlsp_name : String) (pre : Option String) : String :=
  let fname := lowerStr hlsp_name ++ file_ext
  match pre with
  | some p => if p.isEmpty then fname else p ++ "_" ++ fname
  | none => fname

/-- The private path attributes written by `_update_stage_paths`. -/
structure StagePaths where
  root : String
  default_path : String
  cfn_path : String
  pcdf_path : String
  cmd_path : String
deriving DecidableEq, Repr

/-- `HLSPFile._update_stage_paths` (lines 447-482): anchor the root at
the first occurrence of `MAST_HLSP` in the current working directory
(an external input, so a parameter here) and derive the default path
and the three per-stage file paths. -/
def update_stage_paths (cwd hlsp_name : String) : StagePaths :=
  let root := pjoin (splitFirst cwd root_dir) root_dir
  { root := root
    default_path := pjoin root (get_filename hlsp_name none)
    cfn_path :=
      pjoin (pjoin root check_file_names_dir)
        (get_filename hlsp_name (some check_file_names_out))
    pcdf_path :=
      pjoin (pjoin root check_metadata_format_dir)
        (get_filename hlsp_name (some precheck_metadata_format_out))
    cmd_path :=
      pjoin (pjoin root check_metadata_format_dir)
        (get_filename hlsp_name (some check_metadata_format_out)) }

/-- `HLSPFile._format_caller` (lines 290-311): for a string argument,
the final path component with its extension removed; `None` (and any
non-string, which the embedding folds into `none`) passes through as
`None`. -/
def format_caller (call_file : Option String) : Option String :=
  match call_file with
  | some s =>
    let caller : String := ⟨(s.data.reverse.takeWhile (fun c => c ≠ '/')).reverse⟩
    some ⟨caller.data.takeWhile (fun c => c ≠ '.')⟩
  | none => none

/-- `HLSPFile._match_caller` (lines 408-426): exact-match lookup of the
formatted caller among the three routine names; anything else yields
`None`. -/
def match_caller (sp : StagePaths) (caller : String) : Option String :=
  if caller = check_file_names_out then some sp.cfn_path
  else if caller = precheck_metadata_format_out then some sp.pcdf_path
  else if caller = check_metadata_format_out then some sp.cmd_path
  else none

/-- `HLSPFile.get_output_filepath` (lines 725-748): recompute the stage
paths, format the caller, and return the `_match_caller` result for a
truthy caller or the default path for a falsy one.  The returned
`Option` is the Python value: `none` is Python `None`. -/
def get_output_filepath (cwd : String) (st : HLSPFile)
    (call_file : Option String) : Option String :=
  let sp := update_stage_paths cwd st.hlsp_name
  let caller := format_caller call_file
  match caller with
  | some c => if c.isEmpty then some sp.default_path else match_caller sp c
  | none => some sp.default_path

/-! ### Loading a persisted dictionary (`HLSPFile.load_dict`)

`load_dict` drives Python's dynamic attribute machinery (`getattr` /
`setattr`), so for it the document is embedded the way Python actually
stores it: as a dictionary of attribute names to loosely typed values,
next to the table of class-level (method) names that `getattr` also
finds. -/

/-- A loosely typed Python value as it appears in a parsed `.hlsp`
dictionary. -/
inductive PyVal where
  | str : String → PyVal
  | bool : Bool → PyVal
  | int : Int → PyVal
  | list : List PyVal → PyVal
  | dict : List (String × PyVal) → PyVal

/-- Python truthiness for the values above (`not val` in the source). -/
def truthy : PyVal → Bool
  | .str s => !s.isEmpty
  | .bool b => b
  | .int n => n != 0
  | .list l => !l.isEmpty
  | .dict d => !d.isEmpty

/-- The errors `load_dict` can raise.  `nameError v` is Python's
`NameError` for referencing the undefined local variable `v`;
`attributeError` stands for the `AttributeError` raised inside
`_get_filename` when `hlsp_name` holds a non-string value. -/
inductive LoadErr where
  | nameError : String → LoadErr
  | attributeError : LoadErr
deriving DecidableEq, Repr

/-- `re.findall('[A-Z][^A-Z]*', key)` (line 787): characters before the
first capital are dropped and each capital starts a group running to
the next capital. -/
def splitCapsGo : List Char → Option (List Char) → List String
  | [], none => []
  | [], some acc => [⟨acc.reverse⟩]
  | c :: cs, none =>
    if c.isUpper then splitCapsGo cs (some [c]) else splitCapsGo cs none
  | c :: cs, some acc =>
    if c.isUpper then (⟨acc.reverse⟩ : String) :: splitCapsGo cs (some [c])
    else splitCapsGo cs (some (c :: acc))

def splitCaps (key : String) : List String := splitCapsGo key.data none

/-- Line 787-788: the attribute name derived from a dictionary key. -/
def attrOfKey (key : String) : String :=
  joinSep "_" ((splitCaps key).map lowerStr)

/-- The non-underscore class-level attributes of `HLSPFile` — its
methods — which `getattr(self, attr)` also finds (every class attribute
proper starts with an underscore, which `attrOfKey` can never
produce). -/
def methodNames : List String :=
  ["add_filetype", "add_fits_keyword", "add_keyword_update",
   "add_unique_parameter", "as_dict", "check_ingest_step",
   "find_file_type", "find_log_file", "fits_keywords",
   "get_check_extensions", "get_data_path", "get_output_filepath",
   "in_hlsp_format", "load_dict", "load_hlsp", "member_fits_standards",
   "read_from_template", "remove_filetype", "reset_fits_keywords",
   "save", "toggle_ingest", "toggle_updated", "update_filepaths",
   "write_xml_template"]

/-- The document state seen by `load_dict`: the instance attribute
dictionary plus the stage-path attributes (absent until
`_update_stage_paths` first runs). -/
structure LoadState where
  attrs : List (String × PyVal)
  paths : Option StagePaths

/-- The instance attributes of a fresh `HLSPFile()` as a Python
attribute dictionary (the private keyword lists are empty and are
handled by the collaborator branches, so only their presence matters
here; they are underscore-named and hence invisible to `attrOfKey`
lookups). -/
def freshLoadState : LoadState :=
  { attrs :=
      [("file_paths", .dict [("InputDir", .str ""), ("Output", .str "")]),
       ("file_types", .list []),
       ("hlsp_name", .str "blank"),
       ("ingest", .dict (ingestSteps.map (fun s => (s, .bool false)))),
       ("keyword_updates", .list []),
       ("unique_parameters", .dict [])]
    paths := none }

/-- `_update_stage_paths` as called from `load_dict`: reads
`self.hlsp_name` (crashing with `AttributeError` inside
`_get_filename` when it is not a string) and rewrites the private path
attributes. -/
def updateLoadPaths (cwd : String) (st : LoadState) :
    Option LoadErr × LoadState :=
  match alookup st.attrs "hlsp_name" with
  | some (.str s) => (none, { st with paths := some (update_stage_paths cwd s) })
  | _ => (some .attributeError, st)

/-- The two branches of `load_dict` that dispatch to the missing
collaborator modules: the `file_types` branch builds `FileType` objects
via `FileType.from_list_item`, registers them with `add_filetype` and
then calls `reset_fits_keywords` (which re-reads the external template
files), and the `keyword_updates` branch builds `FitsKeyword` objects
via `FitsKeyword.from_list_item` and feeds them to `add_fits_keyword`.
Both are parameters of the embedding; the claims hold for every
instantiation. -/
structure LoadHandlers where
  fileTypes : LoadState → PyVal → LoadState
  keywordUpdates : LoadState → PyVal → LoadState

/-- The body of the `for key in in_order` loop of `load_dict`
(lines 782-822) for one key/value pair. -/
def loadStep (H : LoadHandlers) (cwd : String) (st : LoadState)
    (key : String) (val : PyVal) : Option LoadErr × LoadState :=
  let attr := attrOfKey key
  if attr = "" ∨ truthy val = false then (none, st)
  else if ¬ ((st.attrs.map Prod.fst).contains attr ∨ methodNames.contains attr)
  then
    -- The `except AttributeError` arm (lines 797-801) builds its
    -- message from the variable `filename`, which is not defined in
    -- `load_dict`, so Python raises `NameError` here; the following
    -- `self = HLSPFile()` and `raise IOError(err)` lines never run
    -- (and the rebinding would only affect the local name anyway), so
    -- the partially loaded state is what the caller keeps.
    (some (.nameError "filename"), st)
  else if attr = "file_types" then (none, H.fileTypes st val)
  else if attr = "keyword_updates" then (none, H.keywordUpdates st val)
  else
    let st := { st with attrs := aset st.attrs attr val }
    if attr = "hlsp_name" then updateLoadPaths cwd st else (none, st)

/-- The `for key in in_order` loop of `load_dict`, threading the state
until an error escapes. -/
def loadGo (H : LoadHandlers) (cwd : String) (d : List (String × PyVal)) :
    LoadState → List String → Option LoadErr × LoadState
  | st, [] => (none, st)
  | st, k :: ks =>
    match alookup d k with
    | none => loadGo H cwd d st ks
    | some v =>
      match loadStep H cwd st k v with
      | (none, st') => loadGo H cwd d st' ks
      | (some e, st') => (some e, st')

/-- `HLSPFile.load_dict` (lines 767-824): refresh the stage paths, then
process the dictionary entries in sorted key order. -/
def load_dict (H : LoadHandlers) (cwd : String) (st : LoadState)
    (from_dict : List (String × PyVal)) : Option LoadErr × LoadState :=
  match updateLoadPaths cwd st with
  | (some e, st') => (some e, st')
  | (none, st') => loadGo H cwd from_dict st' (sortKeys (from_dict.map Prod.fst))

/-! ## Supporting lemmas -/

theorem alookup_aset_self {α : Type} (l : List (String × α)) (k : String)
    (v : α) : alookup (aset l k v) k = some v := by
  induction l with
  | nil => simp [aset, alookup]
  | cons p ps ih =>
    by_cases hp : p.1 = k
    · simp [aset, alookup, hp]
    · simp only [aset, alookup, if_neg hp] at ih ⊢
      cases hs : (alookup ps k).isSome with
      | true =>
        simp only [hs] at ih ⊢
        simpa [alookup, if_neg hp] using ih
      | false =>
        simp only [hs] at ih ⊢
        simpa [alookup, if_neg hp] using ih

theorem alookup_mem {α : Type} {l : List (String × α)} {k : String} {v : α}
    (h : alookup l k = some v) : (k, v) ∈ l := by
  induction l with
  | nil => simp [alookup] at h
  | cons p ps ih =>
    by_cases hp : p.1 = k
    · simp only [alookup, if_pos hp] at h
      cases h
      subst hp
      exact List.mem_cons_self _ _
    · simp only [alookup, if_neg hp] at h
      exact List.mem_cons_of_mem _ (ih h)

/-- With unique keys, a member pair is what lookup finds. -/
theorem alookup_of_mem {α : Type} {l : List (String × α)} {k : String}
    {v : α} (hnd : (l.map Prod.fst).Nodup) (h : (k, v) ∈ l) :
    alookup l k = some v := by
  induction l with
  | nil => simp at h
  | cons p ps ih =>
    simp only [List.map_cons, List.nodup_cons] at hnd
    rcases List.mem_cons.mp h with h1 | h1
    · subst h1
      simp [alookup]
    · have hk : p.1 ≠ k := by
        intro he
        exact hnd.1 (he ▸ (List.mem_map.mpr ⟨(k, v), h1, rfl⟩))
      simp only [alookup, if_neg hk]
      exact ih hnd.2 h1

theorem findKw_eq_none {ks : List FitsKeyword} {i : String} :
    findKw ks i = none ↔ ∀ t ∈ ks, t.fits_keyword ≠ i := by
  induction ks with
  | nil => simp [findKw]
  | cons k ks ih =>
    by_cases hk : k.fits_keyword = i
    · simp [findKw, hk]
    · simp only [findKw, if_neg hk, ih, List.mem_cons]
      constructor
      · rintro h t (rfl | ht)
        · exact hk
        · exact h t ht
      · intro h t ht
        exact h t (Or.inr ht)

theorem findKw_some {ks : List FitsKeyword} {i : String} {t : FitsKeyword}
    (h : findKw ks i = some t) : t ∈ ks ∧ t.fits_keyword = i := by
  induction ks with
  | nil => simp [findKw] at h
  | cons k ks ih =>
    by_cases hk : k.fits_keyword = i
    · simp only [findKw, if_pos hk] at h
      cases h
      exact ⟨List.mem_cons_self _ _, hk⟩
    · simp only [findKw, if_neg hk] at h
      exact ⟨List.mem_cons_of_mem _ (ih h).1, (ih h).2⟩

/-- With unique identifiers, `findKw` pins down the member with a given
identifier. -/
theorem findKw_unique {ks : List FitsKeyword} {i : String}
    {t r : FitsKeyword} (hnd : (kwIds ks).Nodup) (hf : findKw ks i = some t)
    (hr : r ∈ ks) (hi : r.fits_keyword = i) : r = t := by
  obtain ⟨ht, hti⟩ := findKw_some hf
  exact List.inj_on_of_nodup_map hnd hr ht (hi.trans hti.symm)

/-- `recDiff` keeps the source record's identifier. -/
theorem recDiff_id {s r : FitsKeyword} {other : List FitsKeyword}
    (h : recDiff s other = some r) : r.fits_keyword = s.fits_keyword := by
  unfold recDiff at h
  cases hf : findKw other s.fits_keyword with
  | none =>
    rw [hf] at h
    cases h
    rfl
  | some t =>
    rw [hf] at h
    by_cases he :
        (s.fields.filter
          (fun p => !(alookup t.fields p.1 == some p.2))).isEmpty
    · simp [he] at h
    · simp only [he, Bool.false_eq_true, if_false] at h
      cases h
      rfl

/-- `recDiff` keeps only fields of the source record. -/
theorem recDiff_fields_sublist {s r : FitsKeyword}
    {other : List FitsKeyword} (h : recDiff s other = some r) :
    r.fields.Sublist s.fields := by
  unfold recDiff at h
  cases hf : findKw other s.fits_keyword with
  | none =>
    rw [hf] at h
    cases h
    exact List.Sublist.refl _
  | some t =>
    rw [hf] at h
    by_cases he :
        (s.fields.filter
          (fun p => !(alookup t.fields p.1 == some p.2))).isEmpty
    · simp [he] at h
    · simp only [he, Bool.false_eq_true, if_false] at h
      cases h
      exact List.filter_sublist _

/-- A record produced by `kwDiff a b` cannot be a member of a
well-formed `b`. -/
theorem kwDiff_not_mem_right {a b : List FitsKeyword} (hb : wfSet b) :
    ∀ r ∈ kwDiff a b, r ∉ b := by
  intro r hr hrb
  obtain ⟨s, _, hrd⟩ := List.mem_filterMap.mp hr
  unfold recDiff at hrd
  cases hf : findKw b s.fits_keyword with
  | none =>
    rw [hf] at hrd
    cases hrd
    exact findKw_eq_none.mp hf r hrb rfl
  | some t =>
    rw [hf] at hrd
    by_cases he :
        (s.fields.filter
          (fun p => !(alookup t.fields p.1 == some p.2))).isEmpty
    · simp [he] at hrd
    · simp only [he, Bool.false_eq_true, if_false] at hrd
      cases hrd
      have hrt :
          (⟨s.fits_keyword,
            s.fields.filter
              (fun p => !(alookup t.fields p.1 == some p.2))⟩ : FitsKeyword)
            = t :=
        findKw_unique hb.1 hf hrb rfl
      obtain ⟨p, hp⟩ :=
        List.exists_mem_of_ne_nil _
          (List.isEmpty_eq_false.mp (Bool.eq_false_iff.mpr he))
      have hps := List.mem_filter.mp hp
      have hpt : p ∈ t.fields := by
        rw [← hrt]
        exact hp
      have hlu : alookup t.fields p.1 = some p.2 :=
        alookup_of_mem (hb.2 t (findKw_some hf).1) (by
          cases p
          exact hpt)
      rw [hlu] at hps
      simp at hps

/-- Which records of `a` contribute an entry to `kwDiff a b`: exactly
those absent from `b` by identifier, or present with at least one
differing field. -/
theorem mem_kwDiff_iff {a b : List FitsKeyword} (ha : (kwIds a).Nodup)
    {s : FitsKeyword} (hs : s ∈ a) :
    (∃ d ∈ kwDiff a b, d.fits_keyword = s.fits_keyword) ↔
      (findKw b s.fits_keyword = none ∨
       ∃ t, findKw b s.fits_keyword = some t ∧
         ∃ p ∈ s.fields, alookup t.fields p.1 ≠ some p.2) := by
  constructor
  · rintro ⟨d, hd, hid⟩
    obtain ⟨s', hs', hrd⟩ := List.mem_filterMap.mp hd
    have hss : s' = s :=
      List.inj_on_of_nodup_map ha hs' hs ((recDiff_id hrd).symm.trans hid)
    subst hss
    unfold recDiff at hrd
    cases hf : findKw b s'.fits_keyword with
    | none => exact Or.inl rfl
    | some t =>
      rw [hf] at hrd
      by_cases he :
          (s'.fields.filter
            (fun p => !(alookup t.fields p.1 == some p.2))).isEmpty
      · simp [he] at hrd
      · obtain ⟨p, hp⟩ :=
          List.exists_mem_of_ne_nil _
            (List.isEmpty_eq_false.mp (Bool.eq_false_iff.mpr he))
        have hps := List.mem_filter.mp hp
        refine Or.inr ⟨t, rfl, p, hps.1, ?_⟩
        simpa using hps.2
  · intro h
    rcases h with hf | ⟨t, hf, p, hp, hne⟩
    · refine ⟨s, List.mem_filterMap.mpr ⟨s, hs, ?_⟩, rfl⟩
      unfold recDiff
      rw [hf]
    · have hpd : p ∈ s.fields.filter
          (fun p => !(alookup t.fields p.1 == some p.2)) :=
        List.mem_filter.mpr ⟨hp, by simpa using hne⟩
      have hne' :
          (s.fields.filter
            (fun p => !(alookup t.fields p.1 == some p.2))).isEmpty = false :=
        List.isEmpty_eq_false.mpr (List.ne_nil_of_mem hpd)
      refine ⟨⟨s.fits_keyword,
        s.fields.filter (fun p => !(alookup t.fields p.1 == some p.2))⟩,
        List.mem_filterMap.mpr ⟨s, hs, ?_⟩, rfl⟩
      unfold recDiff
      rw [hf]
      simp [hne']

/-- The update list follows `self`'s order: its identifier sequence is
a subsequence of `self`'s. -/
theorem kwDiff_ids_sublist (a b : List FitsKeyword) :
    (kwIds (kwDiff a b)).Sublist (kwIds a) := by
  induction a with
  | nil => simp [kwDiff, kwIds]
  | cons s rest ih =>
    simp only [kwDiff, List.filterMap_cons] at ih ⊢
    cases hd : recDiff s b with
    | none => exact ih.cons _
    | some r =>
      simp only [kwIds, List.map_cons, recDiff_id hd]
      exact List.Sublist.cons₂ _ ih

theorem map_self {α : Type} {l : List α} {f : α → α} (h : ∀ a ∈ l, f a = a) :
    l.map f = l := by
  induction l with
  | nil => rfl
  | cons a l ih =>
    rw [List.map_cons, h a (List.mem_cons_self _ _),
      ih (fun x hx => h x (List.mem_cons_of_mem _ hx))]

/-- Updating a well-formed record with a selection of its own fields
changes nothing. -/
theorem kwUpdate_self_of_sub {s : FitsKeyword} (hw : wfFields s)
    {fl : List (String × String)} (hsub : ∀ q ∈ fl, q ∈ s.fields) :
    kwUpdate s fl = s := by
  unfold kwUpdate
  have hmap : s.fields.map (fun p =>
      match alookup fl p.1 with
      | some v => (p.1, v)
      | none => p) = s.fields := by
    apply map_self
    intro p hp
    cases hl : alookup fl p.1 with
    | none => rfl
    | some v =>
      have hv : (p.1, v) ∈ s.fields := hsub _ (alookup_mem hl)
      have h1 : alookup s.fields p.1 = some v := alookup_of_mem hw hv
      have h2 : alookup s.fields p.1 = some p.2 :=
        alookup_of_mem hw (by
          cases p
          exact hp)
      rw [h1] at h2
      cases h2
      rfl
  have hfil : fl.filter (fun q => (alookup s.fields q.1).isNone) = [] := by
    rw [List.filter_eq_nil_iff]
    intro q hq
    have : alookup s.fields q.1 = some q.2 :=
      alookup_of_mem hw (by
        cases q
        exact hsub _ hq)
    simp [this]
  rw [hmap, hfil, List.append_nil]

/-- `_add_fits_keyword` is the identity when fed a record whose
identifier and fields come from a record already in the well-formed
list. -/
theorem priv_add_fits_keyword_self {ks : List FitsKeyword}
    (hnd : (kwIds ks).Nodup) (hwf : ∀ kw ∈ ks, wfFields kw)
    {r : FitsKeyword}
    (hsrc : ∃ s ∈ ks, r.fits_keyword = s.fits_keyword ∧
      ∀ q ∈ r.fields, q ∈ s.fields) :
    priv_add_fits_keyword ks r = ks := by
  obtain ⟨s, hs, hid, hsub⟩ := hsrc
  have hfound : ks.any (fun k => k.fits_keyword == r.fits_keyword) = true :=
    List.any_eq_true.mpr ⟨s, hs, by simp [hid]⟩
  unfold priv_add_fits_keyword
  simp only [hfound, if_true]
  apply map_self
  intro k hk
  by_cases hkr : k.fits_keyword = r.fits_keyword
  · have hks : k = s :=
      List.inj_on_of_nodup_map hnd hk hs (hkr.trans hid)
    subst hks
    rw [if_pos hkr, kwUpdate_self_of_sub (hwf k hk) hsub]
  · rw [if_neg hkr]

/-- Looking up the parent section after the ensure-then-update pattern
of `add_unique_parameter` yields the updated copy of the old section
(the empty section when the parent was new). -/
theorem alookup_ensure_map (ups : List (String × List (String × String)))
    (parent caom value : String) :
    alookup
      ((if (alookup ups parent).isSome then ups else ups ++ [(parent, [])]).map
        (fun p => if p.1 = parent then (p.1, aset p.2 caom value) else p)) parent
      = some (aset ((alookup ups parent).getD []) caom value) := by
  induction ups with
  | nil => simp [alookup]
  | cons p ups ih =>
    by_cases hp : p.1 = parent
    · simp [alookup, hp]
    · simp only [alookup, if_neg hp] at ih ⊢
      cases hs : (alookup ups parent).isSome with
      | true =>
        simp only [hs] at ih ⊢
        simpa [alookup, if_neg hp] using ih
      | false =>
        simp only [hs] at ih ⊢
        simpa [alookup, if_neg hp] using ih

/-- Identifier bookkeeping for `kwAdd`: when the identifier is already
present the identifier sequence is unchanged. -/
theorem kwIds_kwAdd_found {ks : List FitsKeyword} {kw : FitsKeyword}
    (h : (findKw ks kw.fits_keyword).isSome) :
    kwIds (kwAdd ks kw) = kwIds ks := by
  unfold kwAdd
  rw [if_pos h]
  unfold kwIds
  rw [List.map_map]
  exact List.map_congr_left (fun k _ => by
    by_cases hkk : k.fits_keyword = kw.fits_keyword
    · simp [Function.comp, hkk, kwUpdate]
    · simp [Function.comp, hkk])

/-- Identifier bookkeeping for `kwAdd`: a new identifier is appended. -/
theorem kwIds_kwAdd_not_found {ks : List FitsKeyword} {kw : FitsKeyword}
    (h : ¬(findKw ks kw.fits_keyword).isSome = true) :
    kwIds (kwAdd ks kw) = kwIds ks ++ [kw.fits_keyword] := by
  unfold kwAdd
  rw [if_neg h]
  unfold kwIds
  rw [List.map_append]
  rfl

theorem mem_kwIds_kwAdd_self (ks : List FitsKeyword) (kw : FitsKeyword) :
    kw.fits_keyword ∈ kwIds (kwAdd ks kw) := by
  by_cases h : (findKw ks kw.fits_keyword).isSome
  · rw [kwIds_kwAdd_found h]
    obtain ⟨t, ht⟩ := Option.isSome_iff_exists.mp h
    obtain ⟨htm, hti⟩ := findKw_some ht
    exact List.mem_map.mpr ⟨t, htm, hti⟩
  · rw [kwIds_kwAdd_not_found h]
    simp

theorem mem_kwIds_kwAdd_mono (ks : List FitsKeyword) (kw : FitsKeyword)
    {i : String} (h : i ∈ kwIds ks) : i ∈ kwIds (kwAdd ks kw) := by
  by_cases hf : (findKw ks kw.fits_keyword).isSome
  · rw [kwIds_kwAdd_found hf]
    exact h
  · rw [kwIds_kwAdd_not_found hf]
    exact List.mem_append.mpr (Or.inl h)

theorem nodup_kwIds_kwAdd (ks : List FitsKeyword) (kw : FitsKeyword)
    (h : (kwIds ks).Nodup) : (kwIds (kwAdd ks kw)).Nodup := by
  by_cases hf : (findKw ks kw.fits_keyword).isSome
  · rw [kwIds_kwAdd_found hf]
    exact h
  · rw [kwIds_kwAdd_not_found hf]
    have hnm : kw.fits_keyword ∉ kwIds ks := by
      intro hm
      obtain ⟨t, htm, hti⟩ := List.mem_map.mp hm
      exact findKw_eq_none.mp (Option.not_isSome_iff_eq_none.mp hf) t htm hti
    simp [List.nodup_append, h, hnm]

theorem kwFoldTemplate_ids_mono
    (tl : List (String × List (String × String))) :
    ∀ (ks : List FitsKeyword) {i : String},
      i ∈ kwIds ks → i ∈ kwIds (kwFoldTemplate tl ks) := by
  induction tl with
  | nil => intro ks i h; exact h
  | cons p tl ih =>
    intro ks i h
    exact ih _ (mem_kwIds_kwAdd_mono ks ⟨p.1, p.2⟩ h)

/-- Every template identifier ends up in the folded keyword list. -/
theorem kwFoldTemplate_mem (tl : List (String × List (String × String))) :
    ∀ (ks : List FitsKeyword), ∀ p ∈ tl,
      (p : String × List (String × String)).1
        ∈ kwIds (kwFoldTemplate tl ks) := by
  induction tl with
  | nil => intro ks p hp; simp at hp
  | cons q tl ih =>
    intro ks p hp
    rcases List.mem_cons.mp hp with rfl | hp'
    · exact kwFoldTemplate_ids_mono tl _
        (by simpa using mem_kwIds_kwAdd_self ks ⟨p.1, p.2⟩)
    · exact ih _ p hp'

theorem kwFoldTemplate_nodup (tl : List (String × List (String × String))) :
    ∀ (ks : List FitsKeyword), (kwIds ks).Nodup →
      (kwIds (kwFoldTemplate tl ks)).Nodup := by
  induction tl with
  | nil => intro ks h; exact h
  | cons p tl ih =>
    intro ks h
    exact ih _ (nodup_kwIds_kwAdd ks ⟨p.1, p.2⟩ h)

/-- Folding state transformers that leave `_fits_keywords` and
`file_types` untouched leaves both untouched. -/
theorem foldl_preserves {β : Type} (f : HLSPFile → β → HLSPFile)
    (hf : ∀ st b, (f st b).fits_keywords = st.fits_keywords ∧
      (f st b).file_types = st.file_types) :
    ∀ (l : List β) (st : HLSPFile),
      (l.foldl f st).fits_keywords = st.fits_keywords ∧
        (l.foldl f st).file_types = st.file_types := by
  intro l
  induction l with
  | nil => intro st; exact ⟨rfl, rfl⟩
  | cons b l ih =>
    intro st
    rw [List.foldl_cons]
    obtain ⟨h1, h2⟩ := ih (f st b)
    exact ⟨h1.trans (hf st b).1, h2.trans (hf st b).2⟩

/-- `_bulk_add_static_values` only touches `unique_parameters`. -/
theorem bulk_add_static_values_preserves
    (sec : List (String × List (String × String))) (st : HLSPFile) :
    (bulk_add_static_values st sec).fits_keywords = st.fits_keywords ∧
      (bulk_add_static_values st sec).file_types = st.file_types := by
  unfold bulk_add_static_values
  exact foldl_preserves _
    (fun st p =>
      foldl_preserves (fun st q => add_unique_parameter st q.1 p.1 q.2)
        (fun _ _ => ⟨rfl, rfl⟩) p.2 st)
    sec st

/-- The template loop of `_get_standard_fits_keywords` acts on
`_fits_keywords` as `kwFoldTemplate` and leaves `file_types` alone. -/
theorem tmpl_foldl_fits (tl : List (String × List (String × String))) :
    ∀ st : HLSPFile,
      ((tl.foldl (fun st p => add_fits_keyword st ⟨p.1, p.2⟩ true) st).fits_keywords
        = kwFoldTemplate tl st.fits_keywords)
      ∧ ((tl.foldl (fun st p => add_fits_keyword st ⟨p.1, p.2⟩ true) st).file_types
        = st.file_types) := by
  induction tl with
  | nil => intro st; exact ⟨rfl, rfl⟩
  | cons p tl ih =>
    intro st
    rw [List.foldl_cons]
    obtain ⟨h1, h2⟩ := ih (add_fits_keyword st ⟨p.1, p.2⟩ true)
    exact ⟨h1, h2⟩

/-- The membership/deduplication behaviour of the accumulator loop of
`member_fits_standards`. -/
theorem member_foldl_spec (fts : List FileType) :
    ∀ acc : List String, acc.Nodup →
      ((fts.foldl (fun acc ft =>
          if qualifies ft then
            if stdName ft ∈ acc then acc else acc ++ [stdName ft]
          else acc) acc).Nodup
      ∧ ∀ x, (x ∈ fts.foldl (fun acc ft =>
          if qualifies ft then
            if stdName ft ∈ acc then acc else acc ++ [stdName ft]
          else acc) acc ↔
          x ∈ acc ∨ ∃ ft ∈ fts, qualifies ft = true ∧ x = stdName ft)) := by
  induction fts with
  | nil =>
    intro acc h
    exact ⟨h, fun x => by simp⟩
  | cons ft fts ih =>
    intro acc hacc
    rw [List.foldl_cons]
    by_cases hq : qualifies ft = true
    · by_cases hm : stdName ft ∈ acc
      · simp only [hq, if_true, if_pos hm]
        obtain ⟨h1, h2⟩ := ih acc hacc
        refine ⟨h1, fun x => ?_⟩
        rw [h2 x]
        constructor
        · rintro (hx | ⟨ft', hft', hq', rfl⟩)
          · exact Or.inl hx
          · exact Or.inr ⟨ft', List.mem_cons_of_mem _ hft', hq', rfl⟩
        · rintro (hx | ⟨ft', hft', hq', rfl⟩)
          · exact Or.inl hx
          · rcases List.mem_cons.mp hft' with rfl | h'
            · exact Or.inl hm
            · exact Or.inr ⟨ft', h', hq', rfl⟩
      · simp only [hq, if_true, if_neg hm]
        obtain ⟨h1, h2⟩ := ih (acc ++ [stdName ft])
          (by simp [List.nodup_append, hacc, hm])
        refine ⟨h1, fun x => ?_⟩
        rw [h2 x]
        constructor
        · rintro (hx | ⟨ft', hft', hq', rfl⟩)
          · rcases List.mem_append.mp hx with h' | h'
            · exact Or.inl h'
            · simp only [List.mem_singleton] at h'
              exact Or.inr ⟨ft, List.mem_cons_self _ _, hq, h'⟩
          · exact Or.inr ⟨ft', List.mem_cons_of_mem _ hft', hq', rfl⟩
        · rintro (hx | ⟨ft', hft', hq', rfl⟩)
          · exact Or.inl (List.mem_append.mpr (Or.inl hx))
          · rcases List.mem_cons.mp hft' with rfl | h'
            · exact Or.inl (List.mem_append.mpr (Or.inr (by simp)))
            · exact Or.inr ⟨ft', h', hq', rfl⟩
    · simp only [if_neg hq]
      obtain ⟨h1, h2⟩ := ih acc hacc
      refine ⟨h1, fun x => ?_⟩
      rw [h2 x]
      constructor
      · rintro (hx | ⟨ft', hft', hq', rfl⟩)
        · exact Or.inl hx
        · exact Or.inr ⟨ft', List.mem_cons_of_mem _ hft', hq', rfl⟩
      · rintro (hx | ⟨ft', hft', hq', rfl⟩)
        · exact Or.inl hx
        · rcases List.mem_cons.mp hft' with rfl | h'
          · exact absurd hq' hq
          · exact Or.inr ⟨ft', h', hq', rfl⟩

/-- One derivation pass over the single member standard `hst_wfc3`:
it succeeds, extends `_fits_keywords` by the template fold, and leaves
the file-type registry untouched. -/
theorem derive_single_standard (co : Collab)
    {hl : List (String × List (String × String))}
    (hhl : co.statics "hlsp" = some hl) (st : HLSPFile)
    (hm : member_fits_standards st.file_types = some ["hst_wfc3"]) :
    ∃ st', get_standard_fits_keywords co st = some st'
      ∧ st'.fits_keywords = kwFoldTemplate (co.tmpl "hst_wfc3") st.fits_keywords
      ∧ st'.file_types = st.file_types := by
  obtain ⟨hfits, hft⟩ := tmpl_foldl_fits (co.tmpl "hst_wfc3") st
  unfold get_standard_fits_keywords
  rw [hm]
  simp only [List.foldlM_cons, List.foldlM_nil,
    show splitCharStr "hst_wfc3" '_' = ["hst", "wfc3"] from rfl, hhl]
  cases h1 : co.statics "hst" with
  | none =>
    cases h2 : co.statics "wfc3" with
    | none =>
      refine ⟨_, rfl, ?_, ?_⟩
      · rw [(bulk_add_static_values_preserves _ _).1, hfits]
      · rw [(bulk_add_static_values_preserves _ _).2, hft]
    | some s2 =>
      refine ⟨_, rfl, ?_, ?_⟩
      · rw [(bulk_add_static_values_preserves _ _).1,
          (bulk_add_static_values_preserves _ _).1, hfits]
      · rw [(bulk_add_static_values_preserves _ _).2,
          (bulk_add_static_values_preserves _ _).2, hft]
  | some s1 =>
    cases h2 : co.statics "wfc3" with
    | none =>
      refine ⟨_, rfl, ?_, ?_⟩
      · rw [(bulk_add_static_values_preserves _ _).1,
          (bulk_add_static_values_preserves _ _).1, hfits]
      · rw [(bulk_add_static_values_preserves _ _).2,
          (bulk_add_static_values_preserves _ _).2, hft]
    | some s2 =>
      refine ⟨_, rfl, ?_, ?_⟩
      · rw [(bulk_add_static_values_preserves _ _).1,
          (bulk_add_static_values_preserves _ _).1,
          (bulk_add_static_values_preserves _ _).1, hfits]
      · rw [(bulk_add_static_values_preserves _ _).2,
          (bulk_add_static_values_preserves _ _).2,
          (bulk_add_static_values_preserves _ _).2, hft]

/-! ## Claim theorems -/

/-- C1: for every pair of well-formed keyword sets A (`_fits_keywords`)
and B (`_standard_keywords`), the update list `A.diff(B)` computed by
`HLSPFile._get_keyword_updates` into `keyword_updates` contains no
record that is identical (all fields equal) in both A and B; a record
of A contributes an entry exactly when its identifier is absent in B or
present with at least one differing field; and the result's identifier
sequence follows A's order. -/
theorem keyword_diff_spec (st : HLSPFile)
    (hA : wfSet st.fits_keywords) (hB : wfSet st.standard_keywords) :
    (∀ r ∈ (get_keyword_updates st).keyword_updates,
        ¬(r ∈ st.fits_keywords ∧ r ∈ st.standard_keywords))
    ∧ (∀ s ∈ st.fits_keywords,
        ((∃ d ∈ (get_keyword_updates st).keyword_updates,
            d.fits_keyword = s.fits_keyword) ↔
          (findKw st.standard_keywords s.fits_keyword = none ∨
           ∃ t, findKw st.standard_keywords s.fits_keyword = some t ∧
             ∃ p ∈ s.fields, alookup t.fields p.1 ≠ some p.2)))
    ∧ (kwIds (get_keyword_updates st).keyword_updates).Sublist
        (kwIds st.fits_keywords) := by
  refine ⟨?_, ?_, ?_⟩
  · exact fun r hr hand => kwDiff_not_mem_right hB r hr hand.2
  · exact fun s hs => mem_kwDiff_iff hA.1 hs
  · exact kwDiff_ids_sublist _ _

/-- Witness for C1 at a concrete pair of keyword sets. -/
theorem keyword_diff_spec_witness :
    (∀ r ∈ (get_keyword_updates
        { emptyHLSPFile with
          fits_keywords := [⟨"DATE-OBS", [("caom_keyword", "obsDate")]⟩],
          standard_keywords :=
            [⟨"DATE-OBS", [("caom_keyword", "startDate")]⟩] }).keyword_updates,
        ¬(r ∈ [(⟨"DATE-OBS", [("caom_keyword", "obsDate")]⟩ : FitsKeyword)] ∧
          r ∈ [(⟨"DATE-OBS", [("caom_keyword", "startDate")]⟩ : FitsKeyword)]))
    ∧ (∀ s ∈ [(⟨"DATE-OBS", [("caom_keyword", "obsDate")]⟩ : FitsKeyword)],
        ((∃ d ∈ (get_keyword_updates
            { emptyHLSPFile with
              fits_keywords := [⟨"DATE-OBS", [("caom_keyword", "obsDate")]⟩],
              standard_keywords :=
                [⟨"DATE-OBS",
                  [("caom_keyword", "startDate")]⟩] }).keyword_updates,
            d.fits_keyword = s.fits_keyword) ↔
          (findKw [⟨"DATE-OBS", [("caom_keyword", "startDate")]⟩]
              s.fits_keyword = none ∨
           ∃ t, findKw [⟨"DATE-OBS", [("caom_keyword", "startDate")]⟩]
              s.fits_keyword = some t ∧
             ∃ p ∈ s.fields, alookup t.fields p.1 ≠ some p.2)))
    ∧ (kwIds (get_keyword_updates
        { emptyHLSPFile with
          fits_keywords := [⟨"DATE-OBS", [("caom_keyword", "obsDate")]⟩],
          standard_keywords :=
            [⟨"DATE-OBS", [("caom_keyword", "startDate")]⟩] }).keyword_updates).Sublist
        (kwIds [⟨"DATE-OBS", [("caom_keyword", "obsDate")]⟩]) :=
  keyword_diff_spec
    { emptyHLSPFile with
      fits_keywords := [⟨"DATE-OBS", [("caom_keyword", "obsDate")]⟩],
      standard_keywords := [⟨"DATE-OBS", [("caom_keyword", "startDate")]⟩] }
    (by decide) (by decide)

/-- C2: running `_get_keyword_updates` and then
`_implement_keyword_updates` leaves the working keyword set
`_fits_keywords` exactly as it was (for any well-formed working set —
in particular it is a no-op when nothing has diverged from the
standard set). -/
theorem keyword_roundtrip_noop (st : HLSPFile)
    (h : wfSet st.fits_keywords) :
    (implement_keyword_updates (get_keyword_updates st)).fits_keywords
      = st.fits_keywords := by
  have hgen : ∀ (u : List FitsKeyword),
      (∀ r ∈ u, ∃ s ∈ st.fits_keywords, r.fits_keyword = s.fits_keyword ∧
        ∀ q ∈ r.fields, q ∈ s.fields) →
      u.foldl priv_add_fits_keyword st.fits_keywords = st.fits_keywords := by
    intro u
    induction u with
    | nil => intro _; rfl
    | cons r u ih =>
      intro hu
      rw [List.foldl_cons,
        priv_add_fits_keyword_self h.1 h.2 (hu r (List.mem_cons_self _ _)),
        ih (fun x hx => hu x (List.mem_cons_of_mem _ hx))]
  apply hgen
  intro r hr
  obtain ⟨s, hs, hrd⟩ := List.mem_filterMap.mp hr
  exact ⟨s, hs, recDiff_id hrd,
    fun q hq => (recDiff_fields_sublist hrd).subset hq⟩

/-- Witness for C2 at a concrete working set (one diverged record, one
record absent from the standard set). -/
theorem keyword_roundtrip_noop_witness :
    (implement_keyword_updates (get_keyword_updates
      { emptyHLSPFile with
        fits_keywords := [⟨"TELESCOP", [("default", "HST")]⟩,
          ⟨"FILTER", [("default", "F160W")]⟩],
        standard_keywords :=
          [⟨"TELESCOP", [("default", "JWST")]⟩] })).fits_keywords
      = [⟨"TELESCOP", [("default", "HST")]⟩,
         ⟨"FILTER", [("default", "F160W")]⟩] :=
  keyword_roundtrip_noop
    { emptyHLSPFile with
      fits_keywords := [⟨"TELESCOP", [("default", "HST")]⟩,
        ⟨"FILTER", [("default", "F160W")]⟩],
      standard_keywords := [⟨"TELESCOP", [("default", "JWST")]⟩] }
    (by decide)

/-- C4 counterexample: on a freshly constructed `HLSPFile` — whose data
input path has not been set — `get_data_path` does not fail: the
`InputDir` key is present (initialized to the empty string by
`__init__`, line 207), so the empty string is returned successfully. -/
theorem get_data_path_unset_returns_empty :
    get_data_path emptyHLSPFile = Except.ok "" := rfl

/-- C4 amended: `get_data_path` fails with a descriptive error exactly
when the `InputDir` key is absent from `file_paths`; whenever the key
is present (as on a default-initialized `HLSPFile`, where it holds the
empty string) the stored value is returned, even when it is empty. -/
theorem get_data_path_missing_key_spec (st : HLSPFile) :
    (alookup st.file_paths "InputDir" = none →
      get_data_path st = Except.error
        ("<HLSPFile> object for " ++ st.hlsp_name ++ " is missing InputDir!"))
    ∧ (∀ p, alookup st.file_paths "InputDir" = some p →
      get_data_path st = Except.ok p) := by
  constructor
  · intro h
    unfold get_data_path
    rw [h]
  · intro p h
    unfold get_data_path
    rw [h]

/-- Witness for C4's amended statement: the error fires on an
`HLSPFile` whose `file_paths` dict lacks `InputDir`, and the fresh
document returns the empty string. -/
theorem get_data_path_missing_key_spec_witness :
    (get_data_path { emptyHLSPFile with file_paths := [] }
      = Except.error "<HLSPFile> object for blank is missing InputDir!")
    ∧ (get_data_path emptyHLSPFile = Except.ok "") :=
  ⟨(get_data_path_missing_key_spec
      { emptyHLSPFile with file_paths := [] }).1 rfl,
   (get_data_path_missing_key_spec emptyHLSPFile).2 "" rfl⟩

/-- C7 exhibit (code bug): a provided caller hint that matches none of
the three routine names does not fall back to the default output path.
`get_output_filepath` hands the truthy caller to `_match_caller`, whose
no-match result is `None`, and returns that `None`; the default path is
produced only for a missing (or falsy) hint, contradicting the method's
own comment ("Otherwise, provide the default file path."). -/
theorem get_output_filepath_unmatched_returns_none :
    get_output_filepath "/home/user/MAST_HLSP" emptyHLSPFile
        (some "bogus.py") = none
    ∧ get_output_filepath "/home/user/MAST_HLSP" emptyHLSPFile none
        = some "/home/user/MAST_HLSP/blank.hlsp" :=
  ⟨rfl, rfl⟩

/-- C3 exhibit (code bug): loading a dictionary with a key (`Zzz`)
that maps to no known attribute does abandon the load, but not the way
the claim describes.  The error branch of `load_dict` (lines 797-801)
formats its message from the variable `filename`, which is undefined in
that scope, so Python raises `NameError` instead of the descriptive
`IOError`; the `self = HLSPFile()` reset is never reached (and would
only rebind the local name), so the caller keeps the partially mutated
document: here `hlsp_name` has already been overwritten by the earlier
sorted key `HlspName`, and is not reset to the fresh value `blank`. -/
theorem load_dict_unknown_key_bug :
    (load_dict ⟨fun st _ => st, fun st _ => st⟩ "" freshLoadState
        [("HlspName", .str "x"), ("Zzz", .str "y")]).1
      = some (.nameError "filename")
    ∧ alookup (load_dict ⟨fun st _ => st, fun st _ => st⟩ "" freshLoadState
        [("HlspName", .str "x"), ("Zzz", .str "y")]).2.attrs "hlsp_name"
      = some (.str "x")
    ∧ alookup (load_dict ⟨fun st _ => st, fun st _ => st⟩ "" freshLoadState
        [("HlspName", .str "x"), ("Zzz", .str "y")]).2.attrs "hlsp_name"
      ≠ alookup freshLoadState.attrs "hlsp_name" := by
  refine ⟨rfl, rfl, fun h => ?_⟩
  exact absurd (PyVal.str.inj (Option.some.inj h)) (by decide)

/-- C5: for every starting assignment of the five stage flags, every
stage index `k` in `0..4` and every `state` argument, `toggle_ingest`
is monotone exactly as claimed: when the call leaves stage `k`
complete (explicitly with `state=True` or via a toggle landing on
`True`) every stage `0..k-1` is forced complete and the later stages
are unchanged; when it leaves stage `k` incomplete, no other stage's
flag changes. -/
theorem toggle_ingest_monotonic :
    ∀ (b0 b1 b2 b3 b4 : Bool) (k : Fin 5) (state : Option Bool),
      (ingLookup
          (toggle_ingest (ingestSteps.zip [b0, b1, b2, b3, b4]) k.val state)
          (ingestSteps.getD k.val "") = true →
        ∀ j : Fin 5,
          ingLookup
              (toggle_ingest (ingestSteps.zip [b0, b1, b2, b3, b4]) k.val state)
              (ingestSteps.getD j.val "")
            = if j.val ≤ k.val then true
              else [b0, b1, b2, b3, b4].getD j.val false)
      ∧ (ingLookup
          (toggle_ingest (ingestSteps.zip [b0, b1, b2, b3, b4]) k.val state)
          (ingestSteps.getD k.val "") = false →
        ∀ j : Fin 5,
          ingLookup
              (toggle_ingest (ingestSteps.zip [b0, b1, b2, b3, b4]) k.val state)
              (ingestSteps.getD j.val "")
            = if j = k then false
              else [b0, b1, b2, b3, b4].getD j.val false) := by
  decide

/-- Witness for C5: marking stage 2 complete in an all-false pipeline
forces stage 1 on, and marking it incomplete leaves stage 1 alone. -/
theorem toggle_ingest_monotonic_witness :
    (ingLookup
        (toggle_ingest
          (ingestSteps.zip [false, false, false, false, false])
          (2 : Fin 5).val (some true))
        (ingestSteps.getD (1 : Fin 5).val "")
      = if (1 : Fin 5).val ≤ (2 : Fin 5).val then true
        else [false, false, false, false, false].getD (1 : Fin 5).val false)
    ∧ (ingLookup
        (toggle_ingest
          (ingestSteps.zip [false, true, false, false, false])
          (2 : Fin 5).val (some false))
        (ingestSteps.getD (1 : Fin 5).val "")
      = if (1 : Fin 5) = (2 : Fin 5) then false
        else [false, true, false, false, false].getD (1 : Fin 5).val false) :=
  ⟨(toggle_ingest_monotonic false false false false false 2 (some true)).1
      (by decide) 1,
   (toggle_ingest_monotonic false true false false false 2 (some false)).2
      (by decide) 1⟩

/-- C6: with the product named `Foo`, `add_unique_parameter` in the
`provenance` section stores `https://archive.stsci.edu/hlsp/foo` for a
`reference` value ending in the sentinel `>`, stores `FOO` for a `name`
value ending in the sentinel, and stores any value not ending in the
sentinel unchanged. -/
theorem add_unique_parameter_placeholder (v : String)
    (ups : List (String × List (String × String))) :
    getUnique
        (add_unique_parameter
          { emptyHLSPFile with hlsp_name := "Foo", unique_parameters := ups }
          "reference" "provenance" v)
        "provenance" "reference"
      = some (if endsWithStr v ">"
          then "https://archive.stsci.edu/hlsp/foo" else v)
    ∧ getUnique
        (add_unique_parameter
          { emptyHLSPFile with hlsp_name := "Foo", unique_parameters := ups }
          "name" "provenance" v)
        "provenance" "name"
      = some (if endsWithStr v ">" then "FOO" else v) := by
  have hpp : (("provenance" : String) = "provenance") = True := eq_true rfl
  constructor
  · unfold getUnique add_unique_parameter
    dsimp only
    rw [alookup_ensure_map, Option.some_bind, alookup_aset_self]
    unfold substValue
    dsimp only
    simp only [hpp,
      eq_false (by decide : ¬(("reference" : String) = "name")),
      eq_true (rfl : ("reference" : String) = "reference"),
      true_and, false_and, ite_false]
    by_cases hv : endsWithStr v ">" = true
    · rw [if_pos hv, if_pos hv]
      decide
    · rw [if_neg hv, if_neg hv]
  · unfold getUnique add_unique_parameter
    dsimp only
    rw [alookup_ensure_map, Option.some_bind, alookup_aset_self]
    unfold substValue
    dsimp only
    simp only [hpp,
      eq_false (by decide : ¬(("name" : String) = "reference")),
      eq_true (rfl : ("name" : String) = "name"),
      true_and, false_and, ite_false]
    by_cases hv : endsWithStr v ">" = true
    · rw [if_pos hv, if_pos hv]
      decide
    · rw [if_neg hv, if_neg hv]

/-- C9: `add_filetype` keeps the file-type tag unique — adding an entry
whose `ftype` tag is already registered leaves the registry unchanged,
and the tags of the registry stay duplicate-free under every add. -/
theorem add_filetype_unique_tag (fts : List FileType) (nf : FileType) :
    (nf.ftype ∈ fts.map FileType.ftype → add_filetype fts nf = fts)
    ∧ ((fts.map FileType.ftype).Nodup →
        ((add_filetype fts nf).map FileType.ftype).Nodup) := by
  constructor
  · intro h
    unfold add_filetype
    rw [if_pos h]
  · intro h
    unfold add_filetype
    by_cases hm : nf.ftype ∈ fts.map FileType.ftype
    · rw [if_pos hm]
      exact h
    · rw [if_neg hm]
      simp [List.nodup_append, h, hm]

/-- Witness for C9 at a concrete registry. -/
theorem add_filetype_unique_tag_witness :
    (add_filetype [⟨".fits", "wfc3", "hst", true⟩] ⟨".fits", "", "", false⟩
      = [⟨".fits", "wfc3", "hst", true⟩])
    ∧ ((add_filetype [⟨".fits", "wfc3", "hst", true⟩]
        ⟨".fits", "", "", false⟩).map FileType.ftype).Nodup :=
  ⟨(add_filetype_unique_tag _ _).1 (by decide),
   (add_filetype_unique_tag _ _).2 (by decide)⟩

/-- C10: a dictionary entry whose value is falsy (empty string, empty
list, empty mapping, `False`, zero) is skipped by the loop of
`load_dict` before the attribute-name validation: the state is
untouched and no error is raised, for every key — known or unknown —
and for every instantiation of the collaborator branches.
Consequently a dictionary all of whose values are falsy loads without
error and only refreshes the stage paths (which `load_dict`
unconditionally recomputes on entry). -/
theorem load_dict_falsy_skip :
    (∀ (H : LoadHandlers) (cwd : String) (st : LoadState) (key : String)
        (val : PyVal), truthy val = false →
      loadStep H cwd st key val = (none, st))
    ∧ (∀ (H : LoadHandlers) (cwd : String) (st : LoadState)
        (d : List (String × PyVal)) (s : String),
        alookup st.attrs "hlsp_name" = some (.str s) →
        (∀ p ∈ d, truthy p.2 = false) →
        load_dict H cwd st d
          = (none, { st with paths := some (update_stage_paths cwd s) })) := by
  have hstep : ∀ (H : LoadHandlers) (cwd : String) (st : LoadState)
      (key : String) (val : PyVal), truthy val = false →
      loadStep H cwd st key val = (none, st) := by
    intro H cwd st key val h
    unfold loadStep
    rw [if_pos (Or.inr h)]
  refine ⟨hstep, ?_⟩
  intro H cwd st d s hname hall
  have hgo : ∀ (ks : List String) (st' : LoadState),
      loadGo H cwd d st' ks = (none, st') := by
    intro ks
    induction ks with
    | nil => intro st'; rfl
    | cons k ks ih =>
      intro st'
      cases hl : alookup d k with
      | none =>
        unfold loadGo
        simp only [hl]
        exact ih st'
      | some v =>
        unfold loadGo
        simp only [hl, hstep H cwd st' k v (hall _ (alookup_mem hl))]
        exact ih st'
  have hup : updateLoadPaths cwd st
      = (none, { st with paths := some (update_stage_paths cwd s) }) := by
    unfold updateLoadPaths
    rw [hname]
  unfold load_dict
  rw [hup]
  exact hgo _ _

/-- Witness for C10: a falsy-valued unknown key is skipped, and a
dictionary of falsy values (one unknown key, one known key) loads
without error, leaving the fresh document's attributes unchanged. -/
theorem load_dict_falsy_skip_witness :
    (loadStep ⟨fun st _ => st, fun st _ => st⟩ "" freshLoadState "Bogus"
        (.str "") = (none, freshLoadState))
    ∧ (load_dict ⟨fun st _ => st, fun st _ => st⟩ "" freshLoadState
        [("Bogus", .list []), ("FileTypes", .list [])]
        = (none, { freshLoadState with
            paths := some (update_stage_paths "" "blank") })) :=
  ⟨load_dict_falsy_skip.1 _ "" _ _ _ rfl,
   load_dict_falsy_skip.2 _ "" _ _ "blank" rfl (by decide)⟩

/-- C8: `member_fits_standards` returns exactly the deduplicated
standard names (each the joined product-type/standard-name pair, as the
code represents a pair) of the file-type rows whose participation flag
is set and whose standard and product-type are both non-empty — and
`None` exactly when no row qualifies, in which case
`_get_standard_fits_keywords` is a no-op.  For a registered file type
`.fits` with product type `hst`, standard `wfc3` (member standard
`hst_wfc3`) and participation on, two derivation passes populate
`_fits_keywords` with every keyword of the `hst_wfc3` template, with no
identifier duplicated. -/
theorem derive_standard_keywords_spec :
    (∀ fts : List FileType,
      (member_fits_standards fts = none ↔
        ¬∃ ft ∈ fts, qualifies ft = true)
      ∧ (∀ l, member_fits_standards fts = some l →
          l.Nodup ∧ ∀ x, (x ∈ l ↔
            ∃ ft ∈ fts, qualifies ft = true ∧ x = stdName ft)))
    ∧ (∀ (co : Collab) (st : HLSPFile),
        member_fits_standards st.file_types = none →
        get_standard_fits_keywords co st = some st)
    ∧ (∀ (co : Collab) (hl : List (String × List (String × String))),
        co.statics "hlsp" = some hl →
        ∃ st1 st2,
          get_standard_fits_keywords co
            { emptyHLSPFile with file_types := [⟨".fits", "wfc3", "hst", true⟩] }
            = some st1
          ∧ get_standard_fits_keywords co st1 = some st2
          ∧ (∀ p ∈ co.tmpl "hst_wfc3",
              (p : String × List (String × String)).1
                ∈ kwIds st2.fits_keywords)
          ∧ (kwIds st2.fits_keywords).Nodup) := by
  refine ⟨?_, ?_, ?_⟩
  · intro fts
    obtain ⟨hnd, hmem⟩ := member_foldl_spec fts [] (List.nodup_nil)
    constructor
    · unfold member_fits_standards
      by_cases hlen : fts.length = 0
      · rw [if_pos hlen]
        have hnil : fts = [] := List.length_eq_zero.mp hlen
        subst hnil
        simp
      · rw [if_neg hlen]
        by_cases hpos : (fts.foldl (fun acc ft =>
            if qualifies ft then
              if stdName ft ∈ acc then acc else acc ++ [stdName ft]
            else acc) []).length > 0
        · rw [if_pos hpos]
          constructor
          · intro h
            cases h
          · intro h
            obtain ⟨x, hx⟩ := List.exists_mem_of_ne_nil _
              (List.length_pos.mp hpos)
            obtain hx' := (hmem x).mp hx
            rcases hx' with hfalse | ⟨ft, hft, hq, _⟩
            · simp at hfalse
            · exact absurd ⟨ft, hft, hq⟩ h
        · rw [if_neg hpos]
          constructor
          · intro _ h
            obtain ⟨ft, hft, hq⟩ := h
            have : stdName ft ∈ fts.foldl (fun acc ft =>
                if qualifies ft then
                  if stdName ft ∈ acc then acc else acc ++ [stdName ft]
                else acc) [] :=
              (hmem (stdName ft)).mpr (Or.inr ⟨ft, hft, hq, rfl⟩)
            exact hpos (List.length_pos.mpr (List.ne_nil_of_mem this))
          · intro _
            rfl
    · intro l hsome
      unfold member_fits_standards at hsome
      by_cases hlen : fts.length = 0
      · rw [if_pos hlen] at hsome
        cases hsome
      · rw [if_neg hlen] at hsome
        by_cases hpos : (fts.foldl (fun acc ft =>
            if qualifies ft then
              if stdName ft ∈ acc then acc else acc ++ [stdName ft]
            else acc) []).length > 0
        · rw [if_pos hpos] at hsome
          cases hsome
          refine ⟨hnd, fun x => ?_⟩
          rw [hmem x]
          simp
        · rw [if_neg hpos] at hsome
          cases hsome
  · intro co st h
    unfold get_standard_fits_keywords
    rw [h]
  · intro co hl hhl
    obtain ⟨st1, hd1, hfits1, hft1⟩ :=
      derive_single_standard co hhl
        { emptyHLSPFile with file_types := [⟨".fits", "wfc3", "hst", true⟩] }
        (by decide)
    obtain ⟨st2, hd2, hfits2, hft2⟩ :=
      derive_single_standard co hhl st1 (by rw [hft1]; decide)
    refine ⟨st1, st2, hd1, hd2, ?_, ?_⟩
    · intro p hp
      rw [hfits2]
      exact kwFoldTemplate_mem _ _ p hp
    · rw [hfits2, hfits1]
      exact kwFoldTemplate_nodup _ _
        (kwFoldTemplate_nodup _ _ (by decide))

/-- Witness for C8: a concrete collaborator with a one-keyword
`hst_wfc3` template and an empty `hlsp` static section. -/
theorem derive_standard_keywords_spec_witness :
    (get_standard_fits_keywords
        ⟨fun s => if s = "hst_wfc3"
            then [("TELESCOP", [("caom_keyword", "telescope")])] else [],
          fun s => if s = "hlsp" then some [] else none⟩
        emptyHLSPFile = some emptyHLSPFile)
    ∧ (∃ st1 st2,
        get_standard_fits_keywords
          ⟨fun s => if s = "hst_wfc3"
              then [("TELESCOP", [("caom_keyword", "telescope")])] else [],
            fun s => if s = "hlsp" then some [] else none⟩
          { emptyHLSPFile with file_types := [⟨".fits", "wfc3", "hst", true⟩] }
          = some st1
        ∧ get_standard_fits_keywords
            ⟨fun s => if s = "hst_wfc3"
                then [("TELESCOP", [("caom_keyword", "telescope")])] else [],
              fun s => if s = "hlsp" then some [] else none⟩
            st1 = some st2
        ∧ (∀ p ∈ (if ("hst_wfc3" : String) = "hst_wfc3"
              then [("TELESCOP", [("caom_keyword", "telescope")])] else []),
            (p : String × List (String × String)).1
              ∈ kwIds st2.fits_keywords)
        ∧ (kwIds st2.fits_keywords).Nodup)
    ∧ (["hst_wfc3"].Nodup ∧ ∀ x, (x ∈ ["hst_wfc3"] ↔
        ∃ ft ∈ [(⟨".fits", "wfc3", "hst", true⟩ : FileType)],
          qualifies ft = true ∧ x = stdName ft)) :=
  ⟨derive_standard_keywords_spec.2.1
      ⟨fun s => if s = "hst_wfc3"
          then [("TELESCOP", [("caom_keyword", "telescope")])] else [],
        fun s => if s = "hlsp" then some [] else none⟩
      emptyHLSPFile rfl,
   derive_standard_keywords_spec.2.2
      ⟨fun s => if s = "hst_wfc3"
          then [("TELESCOP", [("caom_keyword", "telescope")])] else [],
        fun s => if s = "hlsp" then some [] else none⟩
      [] (by simp),
   (derive_standard_keywords_spec.1
      [⟨".fits", "wfc3", "hst", true⟩]).2 ["hst_wfc3"] rfl⟩

end HLSP
